import Mathlib

/-!
Verification of the core logic of the surface-chloride-concentration
prediction app (`SCs_Streamlit_app.py`).

Shallow embedding of the core logic of `SCs_Streamlit_app.py`: the mix
validator (water-to-binder ratio and batch-volume gates), the feature
assembler (a 15-field row reordered by a hardcoded key list), and the
prediction sweep (one external predictor call per exposure time,
aborting on the first failure).

Real-valued quantities are modelled as exact rationals (`ℚ`).  The
user-supplied mappings `input_data` and `sg_data` are modelled as
association lists `List (String × ℚ)` read through a first-match lookup,
so that claims about iteration order of the mapping can be stated.  The
external predictor is an abstract fallible function `List ℚ → Option ℚ`
(the Python `model.predict` call inside `try`), and, for the statefulness
claim, a state-threading function `σ → List ℚ → Option ℚ × σ`.
-/

namespace SCsApp

/-- First-match lookup in an association list, defaulting to `0`
(Python's `input_data[k]` never misses for the keys the app uses, so the
default is unreachable on real inputs). -/
def lk (d : List (String × ℚ)) (k : String) : ℚ :=
  match d with
  | [] => 0
  | (k', v) :: rest => if k' = k then v else lk rest k

/-- The eight mix-component names, in the order of the `components`
list of the source (the insertion order of `input_data` and `sg_data`). -/
def componentNames : List String :=
  ["Cement", "Fine aggregate", "Coarse aggregate", "Water",
   "Superplasticizer", "Fly ash", "Silica fume", "Blast furnace slag"]

/-- The `input_data` dictionary as built by the widget loop: one entry
per component, in `components` order. -/
def mkDict (c fa ca w sp fl sf sl : ℚ) : List (String × ℚ) :=
  [("Cement", c), ("Fine aggregate", fa), ("Coarse aggregate", ca), ("Water", w),
   ("Superplasticizer", sp), ("Fly ash", fl), ("Silica fume", sf),
   ("Blast furnace slag", sl)]

/-- `binder_mass = input_data["Cement"] + input_data["Fly ash"] +
input_data["Silica fume"] + input_data["Blast furnace slag"]`. -/
def binder_mass (d : List (String × ℚ)) : ℚ :=
  lk d "Cement" + lk d "Fly ash" + lk d "Silica fume" + lk d "Blast furnace slag"

/-- `water_binder_ratio = input_data["Water"] / binder_mass if binder_mass
else 0` — Python truthiness: the ratio is computed iff `binder_mass ≠ 0`. -/
def water_binder_ratio (d : List (String × ℚ)) : ℚ :=
  if binder_mass d = 0 then 0 else lk d "Water" / binder_mass d

/-- `volume = sum(input_data[k] / (sg_data[k] * 1000) for k in input_data)`:
a sum over the iteration order of `input_data`'s keys. -/
def volume (d sgd : List (String × ℚ)) : ℚ :=
  ((d.map Prod.fst).map (fun k => lk d k / (lk sgd k * 1000))).sum

/-- The ratio gate `0.3 <= water_binder_ratio <= 0.7` (the guard of the
first `st.stop()`). -/
def ratioGate (wbr : ℚ) : Bool :=
  decide (0.3 ≤ wbr ∧ wbr ≤ 0.7)

/-- The volume gate `0.95 <= volume <= 1.05` (the guard of the second
`st.stop()`). -/
def volumeGate (v : ℚ) : Bool :=
  decide (0.95 ≤ v ∧ v ≤ 1.05)

/-- The `Exposure Zone` selectbox categorical. -/
inductive Zone
  | tidal
  | splash
  | submerged
deriving DecidableEq, Repr

/-- `zone_ohe = {"Tidal zone": [1,0,0], "Splash zone": [0,1,0],
"Submerged zone": [0,0,1]}` as a one-hot triple
`(zone_tidal, zone_splash, zone_submerged)`. -/
def zone_ohe : Zone → ℚ × ℚ × ℚ
  | .tidal => (1, 0, 0)
  | .splash => (0, 1, 0)
  | .submerged => (0, 0, 1)

/-- `expected_feature_order`: the hardcoded key list the row dictionary is
reordered by before the predictor call. -/
def expected_feature_order : List String :=
  ["Cement", "Fine aggregate", "Coarse aggregate", "Water", "Water-binder ratio",
   "Superplasticizer", "Fly ash", "Silica fume", "Blast furnace slag",
   "Cl content in seawater", "Annual temperature", "Exposure time",
   "Tidal zone", "Splash zone", "Submerged zone"]

/-- The `row = {...}` dictionary literal of the sweep body, in its source
insertion order, for one exposure time `t`. -/
def rawRow (d : List (String × ℚ)) (cl temp : ℚ) (z : Zone) (t : ℚ) :
    List (String × ℚ) :=
  [("Cement", lk d "Cement"),
   ("Fine aggregate", lk d "Fine aggregate"),
   ("Coarse aggregate", lk d "Coarse aggregate"),
   ("Water", lk d "Water"),
   ("Water-binder ratio", water_binder_ratio d),
   ("Superplasticizer", lk d "Superplasticizer"),
   ("Fly ash", lk d "Fly ash"),
   ("Silica fume", lk d "Silica fume"),
   ("Blast furnace slag", lk d "Blast furnace slag"),
   ("Cl content in seawater", cl),
   ("Annual temperature", temp),
   ("Exposure time", t),
   ("Tidal zone", (zone_ohe z).1),
   ("Splash zone", (zone_ohe z).2.1),
   ("Submerged zone", (zone_ohe z).2.2)]

/-- `row = {k: row[k] for k in expected_feature_order}`: the reordering
comprehension that fixes the canonical field order. -/
def orderedRow (d : List (String × ℚ)) (cl temp : ℚ) (z : Zone) (t : ℚ) :
    List (String × ℚ) :=
  expected_feature_order.map (fun k => (k, lk (rawRow d cl temp z t) k))

/-- The value sequence of the single-row DataFrame handed to
`model.predict`: the reordered row's values. -/
def featureVector (d : List (String × ℚ)) (cl temp : ℚ) (z : Zone) (t : ℚ) :
    List ℚ :=
  (orderedRow d cl temp z t).map Prod.snd

/-- `table_exposure_times = [0.5, 1.0, 3.0, 5.0]`. -/
def tableExposureTimes : List ℚ := [0.5, 1.0, 3.0, 5.0]

/-- `graph_exposure_times = [0.5, 1.0, 3.0, 5.0, 10.0, 15.0, 20.0, 25.0, 30.0]`. -/
def graphExposureTimes : List ℚ := [0.5, 1.0, 3.0, 5.0, 10.0, 15.0, 20.0, 25.0, 30.0]

/-- `round(sc, 3)`: rounding to 3 decimal places.  Modelled over exact
rationals with round-to-nearest (Python's float `round` rounds ties to
even; no claim here depends on the tie rule). -/
def round3 (q : ℚ) : ℚ := (round (q * 1000) : ℚ) / 1000

/-- What one pass of the sweep loop accumulates: the table series
`predicted_scs_for_table`, the graph series as (exposure time, rounded
prediction) pairs, and the number of predictor calls made. -/
structure SweepResult where
  table : List ℚ
  samples : List (ℚ × ℚ)
  calls : ℕ
deriving DecidableEq, Repr

/-- The `for t in graph_exposure_times` loop: per time `t`, call the
predictor on the assembled row; on success append `round(sc, 3)` to the
table series when `t` is a table time and always to the graph series; on
the first failure `break` out of the loop. -/
def sweepFrom (p : List ℚ → Option ℚ) (mk : ℚ → List ℚ) :
    List ℚ → SweepResult
  | [] => ⟨[], [], 0⟩
  | t :: ts =>
    match p (mk t) with
    | some sc =>
      let r := sweepFrom p mk ts
      ⟨(if t ∈ tableExposureTimes then [round3 sc] else []) ++ r.table,
       (t, round3 sc) :: r.samples, r.calls + 1⟩
    | none => ⟨[], [], 1⟩

/-- Outcome of a full computation pass: stopped at the ratio gate,
stopped at the volume gate, or ran the sweep. -/
inductive PassOutcome
  | ratioFail
  | volumeFail
  | completed (r : SweepResult)
deriving DecidableEq, Repr

/-- One full pass: ratio gate first (`st.stop()` on violation), then the
volume gate, then the prediction sweep over `graph_exposure_times`. -/
def runPass (p : List ℚ → Option ℚ) (d sgd : List (String × ℚ))
    (cl temp : ℚ) (z : Zone) : PassOutcome :=
  if ratioGate (water_binder_ratio d) = false then .ratioFail
  else if volumeGate (volume d sgd) = false then .volumeFail
  else .completed (sweepFrom p (featureVector d cl temp z) graphExposureTimes)

/-- The sweep with a state-threading predictor, for the statefulness
claim: `model.predict` could in principle mutate the loaded model, so the
general model threads a predictor state `σ` through the loop. -/
def sweepS {σ : Type} (p : σ → List ℚ → Option ℚ × σ) (mk : ℚ → List ℚ) :
    σ → List ℚ → SweepResult × σ
  | s, [] => (⟨[], [], 0⟩, s)
  | s, t :: ts =>
    match p s (mk t) with
    | (some sc, s') =>
      let r := sweepS p mk s' ts
      (⟨(if t ∈ tableExposureTimes then [round3 sc] else []) ++ r.1.table,
        (t, round3 sc) :: r.1.samples, r.1.calls + 1⟩, r.2)
    | (none, s') => (⟨[], [], 1⟩, s')

/-! Basic lookup lemmas. -/

@[simp] theorem lk_nil (k : String) : lk [] k = 0 := rfl

@[simp] theorem lk_cons (k' : String) (v : ℚ) (rest : List (String × ℚ)) (k : String) :
    lk ((k', v) :: rest) k = if k' = k then v else lk rest k := rfl

/-- Lookup in an association list with no duplicate keys is invariant
under permutation of the entries. -/
theorem lk_perm {d d' : List (String × ℚ)} (h : d.Perm d') :
    (d.map Prod.fst).Nodup → ∀ k, lk d k = lk d' k := by
  induction h with
  | nil => intro _ k; rfl
  | cons x h ih =>
    intro nd k
    obtain ⟨k', v⟩ := x
    simp only [List.map_cons, List.nodup_cons] at nd
    simp only [lk_cons]
    rw [ih nd.2 k]
  | swap x y l =>
    intro nd k
    obtain ⟨a, va⟩ := x
    obtain ⟨b, vb⟩ := y
    simp only [List.map_cons, List.nodup_cons, List.mem_cons] at nd
    have hba : b ≠ a := fun e => nd.1 (Or.inl e)
    by_cases hb : b = k
    · have ha : ¬ a = k := fun e => hba (hb.trans e.symm)
      simp [lk_cons, hb, ha]
    · by_cases ha : a = k
      · simp [lk_cons, hb, ha]
      · simp [lk_cons, hb, ha]
  | trans h₁ h₂ ih₁ ih₂ =>
    intro nd k
    have nd₂ := ((h₁.map Prod.fst).nodup_iff).mp nd
    rw [ih₁ nd k, ih₂ nd₂ k]

/-- The row dictionary depends only on the lookup content of
`input_data`, not on its entry order. -/
theorem rawRow_perm {d d' : List (String × ℚ)} (h : d.Perm d')
    (nd : (d.map Prod.fst).Nodup) (cl temp : ℚ) (z : Zone) (t : ℚ) :
    rawRow d' cl temp z t = rawRow d cl temp z t := by
  have e := lk_perm h nd
  simp only [rawRow, water_binder_ratio, binder_mass, e]

/-- C1: every feature vector handed to the external predictor has exactly
15 fields, the reordered row's keys are exactly `expected_feature_order`
(Cement, Fine aggregate, Coarse aggregate, Water, Water-binder ratio,
Superplasticizer, Fly ash, Silica fume, Blast furnace slag, Cl content in
seawater, Annual temperature, Exposure time, Tidal zone, Splash zone,
Submerged zone), and the vector is unchanged under any reordering of the
input mapping's entries. -/
theorem featureVector_canonical_order (d d' : List (String × ℚ)) (cl temp : ℚ)
    (z : Zone) (t : ℚ) (nd : (d.map Prod.fst).Nodup) (h : d.Perm d') :
    (featureVector d cl temp z t).length = 15 ∧
    (orderedRow d cl temp z t).map Prod.fst = expected_feature_order ∧
    featureVector d' cl temp z t = featureVector d cl temp z t := by
  refine ⟨?_, ?_, ?_⟩
  · simp [featureVector, orderedRow, expected_feature_order]
  · simp only [orderedRow, List.map_map]
    exact List.map_id _
  · unfold featureVector orderedRow
    rw [rawRow_perm h nd]

/-- Witness for C1 at a concrete two-entry mapping and its swap. -/
theorem featureVector_canonical_order_witness :
    (featureVector [("Cement", 1), ("Water", 2)] 13 7 Zone.tidal 0.5).length = 15 ∧
    (orderedRow [("Cement", 1), ("Water", 2)] 13 7 Zone.tidal 0.5).map Prod.fst
      = expected_feature_order ∧
    featureVector [("Water", 2), ("Cement", 1)] 13 7 Zone.tidal 0.5
      = featureVector [("Cement", 1), ("Water", 2)] 13 7 Zone.tidal 0.5 :=
  featureVector_canonical_order [("Cement", 1), ("Water", 2)]
    [("Water", 2), ("Cement", 1)] 13 7 Zone.tidal 0.5 (by decide)
    (List.Perm.swap ("Water", 2) ("Cement", 1) [])

/-! Evaluation of the derived mix quantities on the widget dictionary. -/

theorem binder_mass_mkDict (c fa ca w sp fl sf sl : ℚ) :
    binder_mass (mkDict c fa ca w sp fl sf sl) = c + fl + sf + sl := by
  simp [binder_mass, mkDict, lk]

theorem lk_water_mkDict (c fa ca w sp fl sf sl : ℚ) :
    lk (mkDict c fa ca w sp fl sf sl) "Water" = w := by
  simp [mkDict, lk]

theorem water_binder_ratio_mkDict (c fa ca w sp fl sf sl : ℚ)
    (h : c + fl + sf + sl ≠ 0) :
    water_binder_ratio (mkDict c fa ca w sp fl sf sl) = w / (c + fl + sf + sl) := by
  simp [water_binder_ratio, binder_mass_mkDict, lk_water_mkDict, h]

/-- C2: the pass stops at the ratio gate exactly when the water-binder
ratio leaves `[0.30, 0.70]`; it stops at the volume gate exactly when the
ratio gate passes and the batch volume leaves `[0.95, 1.05]` (so the
ratio check is evaluated first); it reaches the sweep exactly when both
gates pass; and when either gate fails the outcome does not depend on
the predictor at all (no feature vector is assembled, no predictor call
occurs). -/
theorem validation_gates (p p' : List ℚ → Option ℚ) (d sgd : List (String × ℚ))
    (cl temp : ℚ) (z : Zone) :
    (runPass p d sgd cl temp z = PassOutcome.ratioFail ↔
      ¬ (0.3 ≤ water_binder_ratio d ∧ water_binder_ratio d ≤ 0.7)) ∧
    (runPass p d sgd cl temp z = PassOutcome.volumeFail ↔
      ((0.3 ≤ water_binder_ratio d ∧ water_binder_ratio d ≤ 0.7) ∧
       ¬ (0.95 ≤ volume d sgd ∧ volume d sgd ≤ 1.05))) ∧
    ((∃ r, runPass p d sgd cl temp z = PassOutcome.completed r) ↔
      ((0.3 ≤ water_binder_ratio d ∧ water_binder_ratio d ≤ 0.7) ∧
       (0.95 ≤ volume d sgd ∧ volume d sgd ≤ 1.05))) ∧
    (¬ ((0.3 ≤ water_binder_ratio d ∧ water_binder_ratio d ≤ 0.7) ∧
        (0.95 ≤ volume d sgd ∧ volume d sgd ≤ 1.05)) →
      runPass p d sgd cl temp z = runPass p' d sgd cl temp z) := by
  by_cases hr : (0.3 ≤ water_binder_ratio d ∧ water_binder_ratio d ≤ 0.7) <;>
    by_cases hv : (0.95 ≤ volume d sgd ∧ volume d sgd ≤ 1.05) <;>
    simp [runPass, ratioGate, volumeGate, hr, hv]

/-- Witness for C2 at a mapping whose binder mass is zero (ratio gate
fails), with two different predictors. -/
theorem validation_gates_witness :
    runPass (fun _ => some 1) (mkDict 0 0 0 5 0 0 0 0) [] 13 7 Zone.tidal
      = PassOutcome.ratioFail ∧
    runPass (fun _ => some 1) (mkDict 0 0 0 5 0 0 0 0) [] 13 7 Zone.tidal
      = runPass (fun _ => none) (mkDict 0 0 0 5 0 0 0 0) [] 13 7 Zone.tidal := by
  have h := validation_gates (fun _ => some 1) (fun _ => none)
    (mkDict 0 0 0 5 0 0 0 0) [] 13 7 Zone.tidal
  have hw : water_binder_ratio (mkDict 0 0 0 5 0 0 0 0) = 0 := by
    simp [water_binder_ratio, binder_mass_mkDict]
  refine ⟨h.1.mpr ?_, h.2.2.2 ?_⟩
  · rw [hw]; norm_num
  · intro hc
    rw [hw] at hc
    exact absurd hc.1.1 (by norm_num)

/-- C4: the binder mass of the widget mapping is the sum of the Cement,
Fly ash, Silica fume and Blast furnace slag quantities; the water-binder
ratio is Water divided by that sum when the sum is positive, and `0` when
the sum is zero. -/
theorem binder_mass_and_ratio (c fa ca w sp fl sf sl : ℚ) :
    binder_mass (mkDict c fa ca w sp fl sf sl) = c + fl + sf + sl ∧
    (0 < c + fl + sf + sl →
      water_binder_ratio (mkDict c fa ca w sp fl sf sl) = w / (c + fl + sf + sl)) ∧
    (c + fl + sf + sl = 0 →
      water_binder_ratio (mkDict c fa ca w sp fl sf sl) = 0) := by
  refine ⟨binder_mass_mkDict c fa ca w sp fl sf sl, ?_, ?_⟩
  · intro h
    exact water_binder_ratio_mkDict c fa ca w sp fl sf sl (ne_of_gt h)
  · intro h
    simp [water_binder_ratio, binder_mass_mkDict, h]

/-- Witness for C4: the spec's scenario-A mix (binder mass `415`,
ratio `180/415`), plus a zero-binder mix. -/
theorem binder_mass_and_ratio_witness :
    binder_mass (mkDict 325 650 1050 180 8 50 10 30) = 325 + 50 + 10 + 30 ∧
    water_binder_ratio (mkDict 325 650 1050 180 8 50 10 30)
      = 180 / (325 + 50 + 10 + 30) ∧
    water_binder_ratio (mkDict 0 650 1050 180 8 0 0 0) = 0 :=
  ⟨(binder_mass_and_ratio 325 650 1050 180 8 50 10 30).1,
   (binder_mass_and_ratio 325 650 1050 180 8 50 10 30).2.1 (by norm_num),
   (binder_mass_and_ratio 0 650 1050 180 8 0 0 0).2.2 (by norm_num)⟩

/-- C5: with zero binder mass the ratio is exactly `0` (no division is
attempted: the embedded `water_binder_ratio` takes its guard branch),
the ratio gate fails, the pass stops at the ratio gate, and the outcome
is independent of the predictor: no feature vector is assembled and no
predictor call occurs. -/
theorem zero_binder_no_prediction (d sgd : List (String × ℚ)) (cl temp : ℚ)
    (z : Zone) (p p' : List ℚ → Option ℚ) (h : binder_mass d = 0) :
    water_binder_ratio d = 0 ∧
    ratioGate (water_binder_ratio d) = false ∧
    runPass p d sgd cl temp z = PassOutcome.ratioFail ∧
    runPass p d sgd cl temp z = runPass p' d sgd cl temp z := by
  have hw : water_binder_ratio d = 0 := by simp [water_binder_ratio, h]
  have hg : ratioGate (water_binder_ratio d) = false := by
    rw [hw]
    simp only [ratioGate]
    norm_num
  refine ⟨hw, hg, ?_, ?_⟩ <;> simp [runPass, hg]

/-- Witness for C5: all binder components zero, Water positive. -/
theorem zero_binder_no_prediction_witness :
    water_binder_ratio (mkDict 0 0 0 5 0 0 0 0) = 0 ∧
    ratioGate (water_binder_ratio (mkDict 0 0 0 5 0 0 0 0)) = false ∧
    runPass (fun _ => some 1) (mkDict 0 0 0 5 0 0 0 0) [] 13 7 Zone.splash
      = PassOutcome.ratioFail ∧
    runPass (fun _ => some 1) (mkDict 0 0 0 5 0 0 0 0) [] 13 7 Zone.splash
      = runPass (fun _ => none) (mkDict 0 0 0 5 0 0 0 0) [] 13 7 Zone.splash :=
  zero_binder_no_prediction (mkDict 0 0 0 5 0 0 0 0) [] 13 7 Zone.splash
    (fun _ => some 1) (fun _ => none) (by simp [binder_mass_mkDict])

/-! Unfolding lemmas and structural properties of the prediction sweep. -/

theorem sweepFrom_cons_some (p : List ℚ → Option ℚ) (mk : ℚ → List ℚ) (t : ℚ)
    (ts : List ℚ) (sc : ℚ) (h : p (mk t) = some sc) :
    sweepFrom p mk (t :: ts) =
      ⟨(if t ∈ tableExposureTimes then [round3 sc] else []) ++ (sweepFrom p mk ts).table,
       (t, round3 sc) :: (sweepFrom p mk ts).samples,
       (sweepFrom p mk ts).calls + 1⟩ := by
  simp [sweepFrom, h]

theorem sweepFrom_cons_none (p : List ℚ → Option ℚ) (mk : ℚ → List ℚ) (t : ℚ)
    (ts : List ℚ) (h : p (mk t) = none) :
    sweepFrom p mk (t :: ts) = ⟨[], [], 1⟩ := by
  simp [sweepFrom, h]

theorem sweep_samples_length_le (p : List ℚ → Option ℚ) (mk : ℚ → List ℚ) :
    ∀ ts : List ℚ, (sweepFrom p mk ts).samples.length ≤ ts.length := by
  intro ts
  induction ts with
  | nil => simp [sweepFrom]
  | cons t ts ih =>
    cases h : p (mk t) with
    | none => simp [sweepFrom_cons_none p mk t ts h]
    | some sc =>
      rw [sweepFrom_cons_some p mk t ts sc h]
      simpa using ih

theorem sweep_samples_of_success (p : List ℚ → Option ℚ) (mk : ℚ → List ℚ) :
    ∀ ts : List ℚ, (∀ t ∈ ts, (p (mk t)).isSome) →
      (sweepFrom p mk ts).samples
        = ts.map (fun u => (u, round3 ((p (mk u)).getD 0))) := by
  intro ts
  induction ts with
  | nil => intro _; rfl
  | cons t ts ih =>
    intro hall
    obtain ⟨sc, hsc⟩ :=
      Option.isSome_iff_exists.mp (hall t (List.mem_cons_self t ts))
    rw [sweepFrom_cons_some p mk t ts sc hsc]
    simp [hsc, ih (fun u hu => hall u (List.mem_cons_of_mem t hu))]

theorem sweep_success_of_length (p : List ℚ → Option ℚ) (mk : ℚ → List ℚ) :
    ∀ ts : List ℚ, (sweepFrom p mk ts).samples.length = ts.length →
      ∀ t ∈ ts, (p (mk t)).isSome := by
  intro ts
  induction ts with
  | nil => intro _ t ht; cases ht
  | cons t ts ih =>
    intro hlen u hu
    cases h : p (mk t) with
    | none =>
      rw [sweepFrom_cons_none p mk t ts h] at hlen
      simp at hlen
    | some sc =>
      rw [sweepFrom_cons_some p mk t ts sc h] at hlen
      simp only [List.length_cons, Nat.add_right_cancel_iff] at hlen
      rcases List.mem_cons.mp hu with rfl | hu'
      · simp [h]
      · exact ih hlen u hu'

theorem sweep_abort_prefix (p : List ℚ → Option ℚ) (mk : ℚ → List ℚ) :
    ∀ (ts₁ : List ℚ) (t : ℚ) (ts₂ : List ℚ),
      (∀ u ∈ ts₁, (p (mk u)).isSome) → p (mk t) = none →
      (sweepFrom p mk (ts₁ ++ t :: ts₂)).samples
          = ts₁.map (fun u => (u, round3 ((p (mk u)).getD 0))) ∧
      (sweepFrom p mk (ts₁ ++ t :: ts₂)).calls = ts₁.length + 1 := by
  intro ts₁
  induction ts₁ with
  | nil =>
    intro t ts₂ _ hfail
    rw [List.nil_append, sweepFrom_cons_none p mk t ts₂ hfail]
    simp
  | cons u ts₁ ih =>
    intro t ts₂ hall hfail
    obtain ⟨sc, hsc⟩ :=
      Option.isSome_iff_exists.mp (hall u (List.mem_cons_self u ts₁))
    have ih' := ih t ts₂ (fun v hv => hall v (List.mem_cons_of_mem u hv)) hfail
    rw [List.cons_append, sweepFrom_cons_some p mk u (ts₁ ++ t :: ts₂) sc hsc]
    simp [hsc, ih'.1, ih'.2]

/-- C3: the sweep collects at most one sample per exposure time; it
collects one for every time iff no predictor call fails; and when the
call at position `ts₁.length` fails (all earlier calls succeeding), the
collected samples are exactly the predictions for `ts₁` — nothing is
fabricated for the failed or later times — and exactly `ts₁.length + 1`
predictor calls are made, i.e. none after the failing one. -/
theorem sweep_abort_on_failure (p : List ℚ → Option ℚ) (mk : ℚ → List ℚ)
    (ts : List ℚ) :
    (sweepFrom p mk ts).samples.length ≤ ts.length ∧
    ((sweepFrom p mk ts).samples.length = ts.length ↔
      ∀ t ∈ ts, (p (mk t)).isSome) ∧
    (∀ (ts₁ : List ℚ) (t : ℚ) (ts₂ : List ℚ), ts = ts₁ ++ t :: ts₂ →
      (∀ u ∈ ts₁, (p (mk u)).isSome) → p (mk t) = none →
      (sweepFrom p mk ts).samples
          = ts₁.map (fun u => (u, round3 ((p (mk u)).getD 0))) ∧
      (sweepFrom p mk ts).calls = ts₁.length + 1) := by
  refine ⟨sweep_samples_length_le p mk ts,
    ⟨sweep_success_of_length p mk ts, ?_⟩, ?_⟩
  · intro hall
    rw [sweep_samples_of_success p mk ts hall]
    simp
  · intro ts₁ t ts₂ hts hall hfail
    subst hts
    exact sweep_abort_prefix p mk ts₁ t ts₂ hall hfail

/-- Witness for C3: a predictor that fails exactly on the third row of a
four-sample sweep; two samples are collected and three calls are made. -/
theorem sweep_abort_on_failure_witness :
    (sweepFrom (fun v => if v = [3] then none else some 2) (fun t => [t])
        [1, 2, 3, 4]).samples = [((1 : ℚ), (2 : ℚ)), (2, 2)] ∧
    (sweepFrom (fun v => if v = [3] then none else some 2) (fun t => [t])
        [1, 2, 3, 4]).calls = 3 := by
  have h := (sweep_abort_on_failure
      (fun v => if v = [3] then none else some 2) (fun t => [t])
      [1, 2, 3, 4]).2.2 [1, 2] 3 [4] rfl
    (by intro u hu; fin_cases hu <;> norm_num)
    (by norm_num)
  refine ⟨?_, ?_⟩
  · rw [h.1]
    norm_num [round3, round_eq]
  · rw [h.2]
    rfl

/-! The table series as a filtered view of the graph series. -/

theorem filter_pre {l₁ l₂ : List ℚ} (q : ℚ → Bool) (h : l₁ <+: l₂) :
    l₁.filter q <+: l₂.filter q := by
  obtain ⟨r, rfl⟩ := h
  exact ⟨r.filter q, (List.filter_append l₁ r).symm⟩

theorem sweep_times_pre (p : List ℚ → Option ℚ) (mk : ℚ → List ℚ) :
    ∀ ts : List ℚ, ((sweepFrom p mk ts).samples.map Prod.fst) <+: ts := by
  intro ts
  induction ts with
  | nil => exact ⟨[], rfl⟩
  | cons t ts ih =>
    cases h : p (mk t) with
    | none =>
      rw [sweepFrom_cons_none p mk t ts h]
      exact ⟨t :: ts, rfl⟩
    | some sc =>
      rw [sweepFrom_cons_some p mk t ts sc h]
      obtain ⟨r, hr⟩ := ih
      exact ⟨r, by simp [hr]⟩

theorem sweep_table_filter (p : List ℚ → Option ℚ) (mk : ℚ → List ℚ) :
    ∀ ts : List ℚ, (sweepFrom p mk ts).table
      = ((sweepFrom p mk ts).samples.filter
          (fun s => decide (s.1 ∈ tableExposureTimes))).map Prod.snd := by
  intro ts
  induction ts with
  | nil => rfl
  | cons t ts ih =>
    cases h : p (mk t) with
    | none => rw [sweepFrom_cons_none p mk t ts h]; rfl
    | some sc =>
      rw [sweepFrom_cons_some p mk t ts sc h]
      by_cases hm : t ∈ tableExposureTimes <;> simp [hm, ih]

theorem sweep_samples_rounded (p : List ℚ → Option ℚ) (mk : ℚ → List ℚ) :
    ∀ ts : List ℚ, ∀ x ∈ (sweepFrom p mk ts).samples,
      ∃ raw, p (mk x.1) = some raw ∧ x.2 = round3 raw := by
  intro ts
  induction ts with
  | nil => intro x hx; cases hx
  | cons t ts ih =>
    intro x hx
    cases h : p (mk t) with
    | none =>
      rw [sweepFrom_cons_none p mk t ts h] at hx
      cases hx
    | some sc =>
      rw [sweepFrom_cons_some p mk t ts sc h] at hx
      rcases List.mem_cons.mp hx with rfl | hx'
      · exact ⟨sc, h, rfl⟩
      · exact ih x hx'

/-- C10: the table series is the graph series filtered to the exposure
times 0.5, 1, 3, 5 (so every table value is the graph value at the same
time); every collected value is `round3` of the raw prediction; the
collected times are a prefix of the requested times; and over the real
graph sweep the table's times are a prefix of the four table times, so an
aborted sweep leaves the table a (possibly strict) prefix of its four
expected entries. -/
theorem table_series_from_graph_sweep (p : List ℚ → Option ℚ)
    (mk : ℚ → List ℚ) (ts : List ℚ) :
    (sweepFrom p mk ts).table
      = ((sweepFrom p mk ts).samples.filter
          (fun s => decide (s.1 ∈ tableExposureTimes))).map Prod.snd ∧
    (∀ x ∈ (sweepFrom p mk ts).samples,
      ∃ raw, p (mk x.1) = some raw ∧ x.2 = round3 raw) ∧
    ((sweepFrom p mk ts).samples.map Prod.fst) <+: ts ∧
    (ts = graphExposureTimes →
      ((sweepFrom p mk ts).samples.map Prod.fst).filter
          (fun u => decide (u ∈ tableExposureTimes)) <+: tableExposureTimes) := by
  refine ⟨sweep_table_filter p mk ts, sweep_samples_rounded p mk ts,
    sweep_times_pre p mk ts, ?_⟩
  intro hts
  subst hts
  have h := filter_pre (fun u => decide (u ∈ tableExposureTimes))
    (sweep_times_pre p mk graphExposureTimes)
  have hg : graphExposureTimes.filter (fun u => decide (u ∈ tableExposureTimes))
      = tableExposureTimes := by
    norm_num [graphExposureTimes, tableExposureTimes, List.filter_cons]
  rwa [hg] at h

/-- Witness for C10 with an always-succeeding predictor over the real
graph times: the filtered table times and a concrete rounded sample. -/
theorem table_series_from_graph_sweep_witness :
    (((sweepFrom (fun _ => some 2) (fun t => [t])
          graphExposureTimes).samples.map Prod.fst).filter
        (fun u => decide (u ∈ tableExposureTimes)) <+: tableExposureTimes) ∧
    (∃ raw, (fun (_ : List ℚ) => some (2 : ℚ)) [(0.5 : ℚ)] = some raw ∧
      (2 : ℚ) = round3 raw) := by
  have h := table_series_from_graph_sweep (fun _ => some 2) (fun t => [t])
    graphExposureTimes
  refine ⟨h.2.2.2 rfl, ?_⟩
  have hs := sweep_samples_of_success (fun _ => some 2) (fun t => [t])
    graphExposureTimes (by intro t ht; simp)
  have hm : ((0.5 : ℚ), (2 : ℚ)) ∈ (sweepFrom (fun _ => some 2) (fun t => [t])
      graphExposureTimes).samples := by
    rw [hs]
    refine List.mem_map.mpr ⟨0.5, ?_, ?_⟩
    · norm_num [graphExposureTimes]
    · norm_num [round3, round_eq]
  exact h.2.1 ((0.5 : ℚ), (2 : ℚ)) hm

/-! Batch volume: closed-form sum and iteration-order invariance. -/

theorem volume_perm_helper (d d' sgd : List (String × ℚ))
    (nd : (d.map Prod.fst).Nodup) (h : d.Perm d') :
    volume d' sgd = volume d sgd := by
  have e := lk_perm h nd
  unfold volume
  have hfun : (fun k => lk d' k / (lk sgd k * 1000))
      = (fun k => lk d k / (lk sgd k * 1000)) := by
    funext k
    rw [e k]
  rw [hfun]
  exact (((h.map Prod.fst).map (fun k => lk d k / (lk sgd k * 1000))).sum_eq).symm

/-- C6: for non-negative quantities and positive specific gravities, the
batch volume is the sum over the eight components of
quantity / (specific gravity × 1000), and it is unchanged under any
permutation of the component iteration order. -/
theorem batch_volume_sum (c fa ca w sp fl sf sl gc gfa gca gw gsp gfl gsf gsl : ℚ)
    (hq : 0 ≤ c ∧ 0 ≤ fa ∧ 0 ≤ ca ∧ 0 ≤ w ∧ 0 ≤ sp ∧ 0 ≤ fl ∧ 0 ≤ sf ∧ 0 ≤ sl)
    (hg : 0 < gc ∧ 0 < gfa ∧ 0 < gca ∧ 0 < gw ∧ 0 < gsp ∧ 0 < gfl ∧ 0 < gsf ∧ 0 < gsl) :
    volume (mkDict c fa ca w sp fl sf sl) (mkDict gc gfa gca gw gsp gfl gsf gsl)
      = c / (gc * 1000) + fa / (gfa * 1000) + ca / (gca * 1000) + w / (gw * 1000)
        + sp / (gsp * 1000) + fl / (gfl * 1000) + sf / (gsf * 1000)
        + sl / (gsl * 1000) ∧
    ∀ d' : List (String × ℚ), (mkDict c fa ca w sp fl sf sl).Perm d' →
      volume d' (mkDict gc gfa gca gw gsp gfl gsf gsl)
        = volume (mkDict c fa ca w sp fl sf sl)
            (mkDict gc gfa gca gw gsp gfl gsf gsl) := by
  refine ⟨?_, ?_⟩
  · simp [volume, mkDict, lk]
    ring
  · intro d' hperm
    exact volume_perm_helper _ d' _ (by simp [mkDict]) hperm

/-- Witness for C6 at a uniform mix, including a reversed iteration
order. -/
theorem batch_volume_sum_witness :
    volume (mkDict 100 100 100 100 100 100 100 100) (mkDict 1 1 1 1 1 1 1 1)
      = 100 / (1 * 1000) + 100 / (1 * 1000) + 100 / (1 * 1000) + 100 / (1 * 1000)
        + 100 / (1 * 1000) + 100 / (1 * 1000) + 100 / (1 * 1000)
        + 100 / (1 * 1000) ∧
    volume ((mkDict 100 100 100 100 100 100 100 100).reverse)
        (mkDict 1 1 1 1 1 1 1 1)
      = volume (mkDict 100 100 100 100 100 100 100 100)
          (mkDict 1 1 1 1 1 1 1 1) := by
  have h := batch_volume_sum 100 100 100 100 100 100 100 100 1 1 1 1 1 1 1 1
    (by norm_num) (by norm_num)
  exact ⟨h.1, h.2 _ (List.reverse_perm _).symm⟩

/-- C7: the zone encoding is one-hot for every zone, `Splash zone` maps
to exactly `(0, 1, 0)`, and every feature vector assembled for the
splash zone carries `0, 1, 0` in positions 13–15 (the last three of the
15 fields). -/
theorem zone_encoding_onehot (d : List (String × ℚ)) (cl temp t : ℚ) :
    (∀ z : Zone, zone_ohe z = (1, 0, 0) ∨ zone_ohe z = (0, 1, 0) ∨
      zone_ohe z = (0, 0, 1)) ∧
    zone_ohe Zone.splash = (0, 1, 0) ∧
    (featureVector d cl temp Zone.splash t).drop 12 = [0, 1, 0] := by
  refine ⟨?_, rfl, ?_⟩
  · intro z
    cases z
    · exact Or.inl rfl
    · exact Or.inr (Or.inl rfl)
    · exact Or.inr (Or.inr rfl)
  · simp [featureVector, orderedRow, expected_feature_order, rawRow, zone_ohe, lk]

/-- C8 as stated is false on the code: with every binder component zero
(admissible input, the widgets only enforce non-negativity), the ratio is
the constant `0`, so increasing Water from 1 to 2 does not increase it. -/
theorem water_monotonicity_cex :
    (1 : ℚ) < 2 ∧
    ¬ (water_binder_ratio (mkDict 0 650 1050 1 8 0 0 0)
        < water_binder_ratio (mkDict 0 650 1050 2 8 0 0 0)) := by
  have h1 : water_binder_ratio (mkDict 0 650 1050 1 8 0 0 0) = 0 := by
    simp [water_binder_ratio, binder_mass_mkDict]
  have h2 : water_binder_ratio (mkDict 0 650 1050 2 8 0 0 0) = 0 := by
    simp [water_binder_ratio, binder_mass_mkDict]
  refine ⟨by norm_num, ?_⟩
  rw [h1, h2]
  norm_num

/-- C8 (amended): provided the binder mass is positive, increasing Water
strictly increases the water-binder ratio, and there is a Water
threshold (`0.7 ×` binder mass) at which the ratio gate passes and
beyond which it fails. -/
theorem water_monotonicity (c fa ca sp fl sf sl : ℚ)
    (hb : 0 < c + fl + sf + sl) :
    (∀ w₁ w₂ : ℚ, w₁ < w₂ →
      water_binder_ratio (mkDict c fa ca w₁ sp fl sf sl)
        < water_binder_ratio (mkDict c fa ca w₂ sp fl sf sl)) ∧
    ∃ θ : ℚ, ratioGate (water_binder_ratio (mkDict c fa ca θ sp fl sf sl)) = true ∧
      ∀ w : ℚ, θ < w →
        ratioGate (water_binder_ratio (mkDict c fa ca w sp fl sf sl)) = false := by
  have hbne := ne_of_gt hb
  constructor
  · intro w₁ w₂ hw
    rw [water_binder_ratio_mkDict c fa ca w₁ sp fl sf sl hbne,
      water_binder_ratio_mkDict c fa ca w₂ sp fl sf sl hbne]
    exact (div_lt_div_iff_of_pos_right hb).mpr hw
  · refine ⟨0.7 * (c + fl + sf + sl), ?_, ?_⟩
    · rw [water_binder_ratio_mkDict c fa ca _ sp fl sf sl hbne]
      have hθ : 0.7 * (c + fl + sf + sl) / (c + fl + sf + sl) = 0.7 := by
        field_simp
      rw [hθ]
      simp only [ratioGate, decide_eq_true_eq]
      norm_num
    · intro w hw
      rw [water_binder_ratio_mkDict c fa ca w sp fl sf sl hbne]
      simp only [ratioGate, decide_eq_false_iff_not]
      intro hcontra
      have hle : w ≤ 0.7 * (c + fl + sf + sl) := (div_le_iff₀ hb).mp hcontra.2
      linarith

/-- Witness for C8 (amended) at binder mass `400`: ratio `1/4 < 1/2`. -/
theorem water_monotonicity_witness :
    water_binder_ratio (mkDict 400 0 0 100 0 0 0 0)
      < water_binder_ratio (mkDict 400 0 0 200 0 0 0 0) ∧
    ∃ θ : ℚ, ratioGate (water_binder_ratio (mkDict 400 0 0 θ 0 0 0 0)) = true ∧
      ∀ w : ℚ, θ < w →
        ratioGate (water_binder_ratio (mkDict 400 0 0 w 0 0 0 0)) = false := by
  have h := water_monotonicity 400 0 0 0 0 0 0 (by norm_num)
  exact ⟨h.1 100 200 (by norm_num), h.2⟩

/-- C9: with a deterministic, state-preserving predictor, the state-
threading sweep computes exactly the pure sweep and leaves the predictor
state untouched, so re-running the sweep with unchanged inputs (from the
state the first run left behind) collects an identical sample sequence.
The feature assembler is a pure function of its arguments in this
embedding, so identical inputs give identical vectors by construction. -/
theorem sweep_stateless_idempotent {σ : Type} (p : σ → List ℚ → Option ℚ × σ)
    (f : List ℚ → Option ℚ) (hdet : ∀ s v, p s v = (f v, s)) (mk : ℚ → List ℚ)
    (s : σ) (ts : List ℚ) :
    sweepS p mk s ts = (sweepFrom f mk ts, s) ∧
    (sweepS p mk (sweepS p mk s ts).2 ts).1 = (sweepS p mk s ts).1 := by
  have key : ∀ (ts : List ℚ) (s : σ), sweepS p mk s ts = (sweepFrom f mk ts, s) := by
    intro ts
    induction ts with
    | nil => intro s; rfl
    | cons t ts ih =>
      intro s
      cases hf : f (mk t) with
      | none => simp [sweepS, sweepFrom, hdet, hf]
      | some sc => simp [sweepS, sweepFrom, hdet, hf, ih]
  refine ⟨key ts s, ?_⟩
  simp [key]

/-- Witness for C9 with a concrete stateless predictor over two times. -/
theorem sweep_stateless_idempotent_witness :
    sweepS (fun (s : ℕ) (_ : List ℚ) => (some 2, s)) (fun t => [t]) 0 [1, 2]
      = (sweepFrom (fun _ => some 2) (fun t => [t]) [1, 2], 0) ∧
    (sweepS (fun (s : ℕ) (_ : List ℚ) => (some 2, s)) (fun t => [t])
        (sweepS (fun (s : ℕ) (_ : List ℚ) => (some 2, s)) (fun t => [t])
          0 [1, 2]).2 [1, 2]).1
      = (sweepS (fun (s : ℕ) (_ : List ℚ) => (some 2, s)) (fun t => [t])
          0 [1, 2]).1 :=
  sweep_stateless_idempotent (fun s _ => (some 2, s)) (fun _ => some 2)
    (fun _ _ => rfl) (fun t => [t]) 0 [1, 2]

end SCsApp
